import Mathlib

/-!
Shallow embedding of the OwnedMatrix / Student resource-management idiom of the
cpp-oops repository.

The heap is modelled explicitly: a map from addresses to integer blocks plus an
allocation counter and a log of alloc/free events.  Each `new int[n]` becomes a
fresh block, each `delete[]` removes a block.  The `Student` class of the
cheatsheet (part_000, sections 3.1, 3.3 and 4: const id, age, name, fees, and a
dynamically allocated `size x size` matrix stored as row blocks) is embedded as
a record holding the row addresses; the `Student`/`Person` classes of the demo
file (part_001) are embedded in namespace `Demo`.  Machine ints become `Int`
(no arithmetic overflow occurs in any modelled operation: values are only
moved), C++ `int` sizes that the invariants force to be non-negative become
`Nat` after the construction boundary check.
-/

/-- Allocation events, used to state in which order an operation releases and
acquires storage. -/
inductive HEvent where
  | alloc (a : Nat)
  | free (a : Nat)
deriving DecidableEq, Repr

/-- Heap of integer blocks: `mem a` is the block at address `a` (none if the
address is unallocated or freed), `next` the next fresh address, `log` the
trace of alloc/free events performed so far. -/
structure Heap where
  mem : Nat → Option (List Int)
  next : Nat
  log : List HEvent

/-- Empty heap. -/
def Heap.empty : Heap := ⟨fun _ => none, 0, []⟩

/-- Model of new int[n]: allocate a fresh block with the given contents. -/
def allocBlock (h : Heap) (content : List Int) : Heap × Nat :=
  (⟨fun a => if a = h.next then some content else h.mem a,
    h.next + 1, h.log ++ [HEvent.alloc h.next]⟩, h.next)

/-- Model of delete[] a: remove the block at address a. -/
def freeBlock (h : Heap) (a : Nat) : Heap :=
  ⟨fun x => if x = a then none else h.mem x, h.next, h.log ++ [HEvent.free a]⟩

/-- Read the j-th cell of the block at address a. -/
def readCell (h : Heap) (a : Nat) (j : Nat) : Option Int :=
  (h.mem a).bind fun l => l[j]?

/-- Total read (the default 0 is never hit on the in-bounds reads that the
source performs on valid instances). -/
def readCellD (h : Heap) (a : Nat) (j : Nat) : Int :=
  (readCell h a j).getD 0

/-- Model of a[j] = v: overwrite the j-th cell of the block at address a. -/
def writeCell (h : Heap) (a : Nat) (j : Nat) (v : Int) : Heap :=
  match h.mem a with
  | some l => ⟨fun x => if x = a then some (l.set j v) else h.mem x, h.next, h.log⟩
  | none => h

/-- Length of the block at an address, if allocated. -/
def blockLen (h : Heap) (a : Nat) : Option Nat :=
  (h.mem a).map List.length

/-- Embeds the inner copy loop `for (j = 0; j < n; ++j) dst[j] = src[j]`
(cheatsheet part_000 copy constructor and operator=, demo part_001 operator=):
`copyCells h src dst n` performs the writes for j = 0 .. n-1 in order. -/
def copyCells (h : Heap) (src dst : Nat) : Nat → Heap
  | 0 => h
  | n + 1 =>
    let h' := copyCells h src dst n
    writeCell h' dst n (readCellD h' src n)

/-- Embeds the outer copy loop `for (i) for (j) matrix[i][j] = s.matrix[i][j]`
of part_000, walking the source and destination row-address lists in step. -/
def copyRows : Heap → List Nat → List Nat → Nat → Heap
  | h, s :: ss, d :: ds, cols => copyRows (copyCells h s d cols) ss ds cols
  | h, _, _, _ => h

/-- Embeds `matrix = new int*[n]; for (i) matrix[i] = new int[cols]` of
part_000: allocate n fresh row blocks in order, each filled with `junk`
(the C++ rows are uninitialized, so `junk` is arbitrary). -/
def allocRows : Heap → Nat → Nat → Int → Heap × List Nat
  | h, 0, _, _ => (h, [])
  | h, n + 1, cols, junk =>
    let p := allocBlock h (List.replicate cols junk)
    let q := allocRows p.1 n cols junk
    (q.1, p.2 :: q.2)

/-- Embeds `for (i) delete[] matrix[i]` of part_000 (operator= and destructor):
release every row block in order. -/
def freeRows (h : Heap) (rows : List Nat) : Heap :=
  rows.foldl freeBlock h

namespace Sheet

/-- The Student class of the cheatsheet (part_000): const id, age, name, fees
and a square matrix owned through row pointers.  `matrix` is the int** field
(none models nullptr, some rows the allocated row-pointer array); `size` is
the side length (C++ int, non-negative on every constructed instance); `oid`
is the address of the object itself, used by the self-assignment guard
`this == &s`. -/
structure Student where
  id : Int
  age : Int
  name : String
  fees : Float
  size : Nat
  matrix : Option (List Nat)
  oid : Nat

/-- Embeds the deep copy constructor of part_000 lines 98-108: copy the scalar
fields, allocate a fresh size x size matrix, then copy every cell from s. -/
def Student.copyCtor (h : Heap) (s : Student) (oid' : Nat) (junk : Int) :
    Heap × Student :=
  let p := allocRows h s.size s.size junk
  let h2 := copyRows p.1 (s.matrix.getD []) p.2 s.size
  (h2, { id := s.id, age := s.age, name := s.name, fees := s.fees,
         size := s.size, matrix := some p.2, oid := oid' })

/-- Embeds the copy assignment operator of part_000 lines 133-160:
self-assignment guard, copy scalar fields, release and reallocate the matrix
when the sizes differ, then copy every cell from s. -/
def Student.assign (h : Heap) (t s : Student) (junk : Int) : Heap × Student :=
  if t.oid = s.oid then (h, t)
  else
    let t1 : Student := { t with age := s.age, name := s.name, fees := s.fees }
    let p :=
      if t1.size ≠ s.size then
        let h' :=
          match t1.matrix with
          | some rows => freeRows h rows
          | none => h
        let q := allocRows h' s.size s.size junk
        (q.1, { t1 with size := s.size, matrix := some q.2 })
      else (h, t1)
    (copyRows p.1 (s.matrix.getD []) (p.2.matrix.getD []) p.2.size, p.2)

/-- Unchecked cell read matrix[i][j], as performed by the demo drivers. -/
def Student.cell (h : Heap) (m : Student) (i j : Nat) : Int :=
  readCellD h ((m.matrix.getD []).getD i 0) j

/-- Unchecked cell write matrix[i][j] = v, as performed by the demo drivers. -/
def Student.setCell (h : Heap) (m : Student) (i j : Nat) (v : Int) : Heap :=
  writeCell h ((m.matrix.getD []).getD i 0) j v

/-- Validity of an instance in a heap: the row-pointer array is allocated,
holds exactly `size` pairwise distinct live addresses, and each row is an
allocated block of exactly `size` cells.  This is the state every constructor
of the source establishes. -/
def validIn (h : Heap) (m : Student) : Prop :=
  ∃ rows, m.matrix = some rows ∧ rows.length = m.size ∧ rows.Nodup ∧
    ∀ a ∈ rows, a < h.next ∧ blockLen h a = some m.size

/-- Two instances share no storage (the no-aliasing invariant of the spec,
established by every constructor because allocation is always fresh). -/
def separated (a b : Student) : Prop :=
  ∀ x ∈ a.matrix.getD [], x ∉ b.matrix.getD []

/-- Storage invariant of spec section 3: either the empty state, or storage
fully allocated to the declared size: `size` rows of exactly `size`
initialized integers each. -/
def Inv (h : Heap) (m : Student) : Prop :=
  (m.size = 0 ∧ m.matrix = none) ∨
  (∃ rows, m.matrix = some rows ∧ rows.length = m.size ∧
    ∀ a ∈ rows, blockLen h a = some m.size)

/-- Error kinds of spec section 7. -/
inductive MErr where
  | InvalidArgument
  | OutOfRange
deriving DecidableEq, Repr

/-- Modelled from the spec: `Construct(size, fill)` of section 4.1 is not in
the source (the source constructors take a size without validation and leave
the cells uninitialized); per the spec it rejects a negative size with
`InvalidArgument` and otherwise allocates `size * size` cells all equal to
`fill`. -/
def construct (h : Heap) (oid : Nat) (sz : Int) (fill : Int) :
    Except MErr (Heap × Student) :=
  if sz < 0 then .error .InvalidArgument
  else
    let p := allocRows h sz.toNat sz.toNat fill
    .ok (p.1, { id := 0, age := 0, name := "", fees := 0,
                size := sz.toNat, matrix := some p.2, oid := oid })

/-- Modelled from the spec: bounds-checked `Get(row, col)` of section 4.1; the
source only performs raw unchecked indexing (spec section 9 treats that as the
defect this contract corrects). -/
def Student.get (h : Heap) (m : Student) (row col : Int) : Except MErr Int :=
  if row < 0 ∨ (m.size : Int) ≤ row ∨ col < 0 ∨ (m.size : Int) ≤ col then
    .error .OutOfRange
  else
    .ok (readCellD h ((m.matrix.getD []).getD row.toNat 0) col.toNat)

/-- Modelled from the spec: bounds-checked `Set(row, col, value)` of section
4.1 (same boundary as `Get`; on failure the heap is untouched). -/
def Student.set (h : Heap) (m : Student) (row col : Int) (v : Int) :
    Except MErr Heap :=
  if row < 0 ∨ (m.size : Int) ≤ row ∨ col < 0 ∨ (m.size : Int) ≤ col then
    .error .OutOfRange
  else
    .ok (writeCell h ((m.matrix.getD []).getD row.toNat 0) col.toNat v)

/-- Modelled from the spec: `Release` of section 4.1 as an explicit operation
(in the source it is split between the part_000 destructor, which frees every
row under an `if (matrix)` guard, and the part_001 destructor, which nulls the
pointer after deleting); it frees all owned storage and moves the instance to
the empty state. -/
def Student.release (h : Heap) (t : Student) : Heap × Student :=
  match t.matrix with
  | some rows => (freeRows h rows, { t with size := 0, matrix := none })
  | none => (h, t)

/-- Events appended to the log by an assignment. -/
def assignEvents (h : Heap) (t s : Student) (junk : Int) : List HEvent :=
  ((Student.assign h t s junk).1.log).drop h.log.length

/-- True when some free event is followed (later in the trace) by some alloc
event, i.e. storage was released before new storage was acquired. -/
def hasAllocAfterFree : List HEvent → Bool
  | [] => false
  | HEvent.free _ :: rest => rest.any (fun e => match e with
      | HEvent.alloc _ => true
      | HEvent.free _ => false) || hasAllocAfterFree rest
  | HEvent.alloc _ :: rest => hasAllocAfterFree rest

/-- Concrete sample: a size-1 instance living in a heap of one block. -/
def sampleA : Heap × Student :=
  ((allocRows Heap.empty 1 1 5).1,
   { id := 0, age := 0, name := "", fees := 0, size := 1,
     matrix := some (allocRows Heap.empty 1 1 5).2, oid := 1 })

/-- Concrete sample: a size-2 instance allocated after sampleA in the same
heap. -/
def sampleB : Heap × Student :=
  ((allocRows sampleA.1 2 2 9).1,
   { id := 0, age := 0, name := "", fees := 0, size := 2,
     matrix := some (allocRows sampleA.1 2 2 9).2, oid := 2 })

end Sheet

namespace Demo

/-- The Person base class of the demo file (part_001): const id, age, name.
The static population counter is threaded explicitly as an `Int` state. -/
structure Person where
  id : Int
  age : Int
  name : String

/-- Embeds the default-argument constructor `Person(int x = 0)` of part_001
lines 33-36: initializes the fields and increments population. -/
def Person.mkDefault (x : Int) (pop : Int) : Person × Int :=
  ({ id := 0, age := x, name := "Default" }, pop + 1)

/-- Embeds the parameterized constructor `Person(int, string, int = 0)` of
part_001 lines 39-42: initializes the fields and increments population. -/
def Person.mkParam (age : Int) (name : String) (personID : Int) (pop : Int) :
    Person × Int :=
  ({ id := personID, age := age, name := name }, pop + 1)

/-- Embeds the shallow copy constructor `Person(const Person&)` of part_001
lines 45-47: copies the fields and leaves population untouched. -/
def Person.copyCtor (p : Person) (pop : Int) : Person × Int :=
  ({ id := p.id, age := p.age, name := p.name }, pop)

/-- Embeds the destructor of part_001 lines 63-66: decrements population. -/
def Person.dtor (_ : Person) (pop : Int) : Int :=
  pop - 1

/-- The Student class of the demo file (part_001): the Person fields plus a
pointer to a heap block of exactly 3 marks. -/
structure Student where
  id : Int
  age : Int
  name : String
  marks : Nat

/-- Embeds the copy assignment operator of part_001 lines 99-103: copies the
three marks values into the receiver's existing marks storage and touches
nothing else. -/
def Student.assign (h : Heap) (t s : Student) : Heap × Student :=
  (copyCells h s.marks t.marks 3, t)

/-- Concrete heap with two three-cell marks blocks, at addresses 0 and 1. -/
def marksHeap : Heap :=
  (allocBlock (allocBlock Heap.empty [1, 2, 3]).1 [4, 5, 6]).1

end Demo

/-! Basic lemmas about the heap primitives. -/

theorem writeCell_next (h : Heap) (a j : Nat) (v : Int) :
    (writeCell h a j v).next = h.next := by
  unfold writeCell; split <;> rfl

theorem writeCell_log (h : Heap) (a j : Nat) (v : Int) :
    (writeCell h a j v).log = h.log := by
  unfold writeCell; split <;> rfl

theorem writeCell_mem_ne (h : Heap) (a j : Nat) (v : Int) (x : Nat)
    (hx : x ≠ a) : (writeCell h a j v).mem x = h.mem x := by
  unfold writeCell; split
  · simp [hx]
  · rfl

theorem writeCell_blockLen (h : Heap) (a j : Nat) (v : Int) (x : Nat) :
    blockLen (writeCell h a j v) x = blockLen h x := by
  unfold writeCell
  split
  next l hl =>
    by_cases hx : x = a
    · subst hx; simp [blockLen, hl]
    · simp [blockLen, hx]
  next => rfl

theorem readCellD_congr (h h' : Heap) (a : Nat) (k : Nat)
    (hm : h'.mem a = h.mem a) : readCellD h' a k = readCellD h a k := by
  unfold readCellD readCell; rw [hm]

theorem readCellD_writeCell_ne (h : Heap) (a j : Nat) (v : Int) (x : Nat)
    (k : Nat) (hx : x ≠ a) :
    readCellD (writeCell h a j v) x k = readCellD h x k :=
  readCellD_congr h (writeCell h a j v) x k (writeCell_mem_ne h a j v x hx)

theorem readCellD_writeCell_self (h : Heap) (a j : Nat) (v : Int) (k L : Nat)
    (hL : blockLen h a = some L) :
    readCellD (writeCell h a j v) a k =
      if k = j ∧ j < L then v else readCellD h a k := by
  obtain ⟨l, hl, hlen⟩ := Option.map_eq_some'.mp hL
  unfold writeCell
  rw [hl]
  unfold readCellD readCell
  simp only [hl]
  show ((some (l.set j v)).bind fun l => l[k]?).getD 0 = _
  by_cases hk : k = j
  · subst hk
    by_cases hj : k < l.length
    · have hkL : k < L := hlen ▸ hj
      simp [List.getElem?_set, hj, hlen, hkL]
    · have hkL : ¬ k < L := by omega
      simp only [Option.some_bind]
      rw [List.set_eq_of_length_le (Nat.le_of_not_lt hj)]
      simp [hkL]
  · simp [List.getElem?_set_ne (fun hji => hk hji.symm), hk]

/-! Lemmas about the inner copy loop. -/

theorem copyCells_next (h : Heap) (src dst : Nat) (n : Nat) :
    (copyCells h src dst n).next = h.next := by
  induction n with
  | zero => rfl
  | succ n ih => simp [copyCells, writeCell_next, ih]

theorem copyCells_log (h : Heap) (src dst : Nat) (n : Nat) :
    (copyCells h src dst n).log = h.log := by
  induction n with
  | zero => rfl
  | succ n ih => simp [copyCells, writeCell_log, ih]

theorem copyCells_mem_ne (h : Heap) (src dst : Nat) (n : Nat) (x : Nat)
    (hx : x ≠ dst) : (copyCells h src dst n).mem x = h.mem x := by
  induction n with
  | zero => rfl
  | succ n ih => simp [copyCells, writeCell_mem_ne _ _ _ _ _ hx, ih]

theorem copyCells_blockLen (h : Heap) (src dst : Nat) (n : Nat) (x : Nat) :
    blockLen (copyCells h src dst n) x = blockLen h x := by
  induction n with
  | zero => rfl
  | succ n ih => simp [copyCells, writeCell_blockLen, ih]

theorem copyCells_read (h : Heap) (src dst : Nat) (n : Nat) (k L : Nat)
    (hne : src ≠ dst) (hL : blockLen h dst = some L) :
    readCellD (copyCells h src dst n) dst k =
      if k < n ∧ k < L then readCellD h src k else readCellD h dst k := by
  induction n with
  | zero => simp [copyCells]
  | succ n ih =>
    have hL' : blockLen (copyCells h src dst n) dst = some L := by
      rw [copyCells_blockLen]; exact hL
    have hsrc : readCellD (copyCells h src dst n) src n = readCellD h src n :=
      readCellD_congr _ _ _ _ (copyCells_mem_ne h src dst n src hne)
    show readCellD (writeCell (copyCells h src dst n) dst n
        (readCellD (copyCells h src dst n) src n)) dst k = _
    rw [readCellD_writeCell_self _ _ _ _ _ L hL']
    by_cases hk : k = n
    · subst hk
      by_cases hkL : k < L
      · simp [hkL, hsrc, Nat.lt_succ_self]
      · simp [hkL, ih]
    · have hiff : (k < n + 1 ∧ k < L) ↔ (k < n ∧ k < L) := by
        constructor
        · rintro ⟨h1, h2⟩
          exact ⟨Nat.lt_of_le_of_ne (Nat.le_of_lt_succ h1) hk, h2⟩
        · rintro ⟨h1, h2⟩
          exact ⟨Nat.lt_succ_of_lt h1, h2⟩
      simp [hk, ih, hiff]

/-! Lemmas about the outer copy loop. -/

theorem copyRows_next (src : List Nat) : ∀ (dst : List Nat) (cols : Nat)
    (h : Heap), (copyRows h src dst cols).next = h.next := by
  induction src with
  | nil => intro dst cols h; cases dst <;> rfl
  | cons s ss ih =>
    intro dst cols h
    cases dst with
    | nil => rfl
    | cons d ds =>
      show (copyRows (copyCells h s d cols) ss ds cols).next = h.next
      rw [ih ds cols, copyCells_next]

theorem copyRows_log (src : List Nat) : ∀ (dst : List Nat) (cols : Nat)
    (h : Heap), (copyRows h src dst cols).log = h.log := by
  induction src with
  | nil => intro dst cols h; cases dst <;> rfl
  | cons s ss ih =>
    intro dst cols h
    cases dst with
    | nil => rfl
    | cons d ds =>
      show (copyRows (copyCells h s d cols) ss ds cols).log = h.log
      rw [ih ds cols, copyCells_log]

theorem copyRows_mem_notin (src : List Nat) : ∀ (dst : List Nat)
    (cols : Nat) (h : Heap) (x : Nat), x ∉ dst →
    (copyRows h src dst cols).mem x = h.mem x := by
  induction src with
  | nil => intro dst cols h x _; cases dst <;> rfl
  | cons s ss ih =>
    intro dst cols h x hx
    cases dst with
    | nil => rfl
    | cons d ds =>
      have hxd : x ≠ d := fun he => hx (he ▸ List.mem_cons_self d ds)
      have hxds : x ∉ ds := fun hm => hx (List.mem_cons_of_mem d hm)
      show (copyRows (copyCells h s d cols) ss ds cols).mem x = h.mem x
      rw [ih ds cols _ x hxds, copyCells_mem_ne _ _ _ _ _ hxd]

theorem copyRows_blockLen (src : List Nat) : ∀ (dst : List Nat) (cols : Nat)
    (h : Heap) (x : Nat),
    blockLen (copyRows h src dst cols) x = blockLen h x := by
  induction src with
  | nil => intro dst cols h x; cases dst <;> rfl
  | cons s ss ih =>
    intro dst cols h x
    cases dst with
    | nil => rfl
    | cons d ds =>
      show blockLen (copyRows (copyCells h s d cols) ss ds cols) x = blockLen h x
      rw [ih ds cols, copyCells_blockLen]

theorem copyRows_read (src : List Nat) : ∀ (dst : List Nat) (cols : Nat),
    dst.Nodup → (∀ d ∈ dst, d ∉ src) →
    ∀ (h : Heap) (i : Nat) (sa da : Nat) (L k : Nat),
      src[i]? = some sa → dst[i]? = some da → blockLen h da = some L →
      k < cols → k < L →
      readCellD (copyRows h src dst cols) da k = readCellD h sa k := by
  induction src with
  | nil =>
    intro dst cols _ _ h i sa da L k hs
    simp at hs
  | cons s ss ih =>
    intro dst cols hnd hdisj h i sa da L k hs hd hL hk1 hk2
    cases dst with
    | nil => simp at hd
    | cons d ds =>
      have hdd : d ∉ ds := (List.nodup_cons.mp hnd).1
      have hnd' : ds.Nodup := (List.nodup_cons.mp hnd).2
      have hds : d ∉ s :: ss := hdisj d (List.mem_cons_self d ds)
      have hdisj' : ∀ d' ∈ ds, d' ∉ ss := fun d' hd' hm =>
        hdisj d' (List.mem_cons_of_mem d hd') (List.mem_cons_of_mem s hm)
      cases i with
      | zero =>
        rw [List.getElem?_cons_zero] at hs hd
        obtain rfl : s = sa := Option.some.inj hs
        obtain rfl : d = da := Option.some.inj hd
        show readCellD (copyRows (copyCells h s d cols) ss ds cols) d k =
          readCellD h s k
        rw [readCellD_congr _ _ _ _ (copyRows_mem_notin ss ds cols _ d hdd)]
        have hne : s ≠ d := fun he => hds (he ▸ List.mem_cons_self s ss)
        rw [copyCells_read h s d cols k L hne hL]
        simp [hk1, hk2]
      | succ i' =>
        rw [List.getElem?_cons_succ] at hs hd
        have hsa_mem : sa ∈ ss := List.getElem?_mem hs
        have hsa_ne : sa ≠ d := fun he =>
          hds (he ▸ List.mem_cons_of_mem s hsa_mem)
        have hL1 : blockLen (copyCells h s d cols) da = some L := by
          rw [copyCells_blockLen]; exact hL
        show readCellD (copyRows (copyCells h s d cols) ss ds cols) da k =
          readCellD h sa k
        rw [ih ds cols hnd' hdisj' (copyCells h s d cols) i' sa da L k hs hd
          hL1 hk1 hk2]
        exact readCellD_congr _ _ _ _ (copyCells_mem_ne h s d cols sa hsa_ne)

/-! Lemmas about row allocation. -/

theorem allocRows_length (n : Nat) : ∀ (h : Heap) (cols : Nat) (junk : Int),
    (allocRows h n cols junk).2.length = n := by
  induction n with
  | zero => intro h cols junk; rfl
  | succ n ih =>
    intro h cols junk
    show ((allocRows (allocBlock h (List.replicate cols junk)).1 n cols
      junk).2).length + 1 = n + 1
    rw [ih]

theorem allocRows_next (n : Nat) : ∀ (h : Heap) (cols : Nat) (junk : Int),
    (allocRows h n cols junk).1.next = h.next + n := by
  induction n with
  | zero => intro h cols junk; rfl
  | succ n ih =>
    intro h cols junk
    show (allocRows (allocBlock h (List.replicate cols junk)).1 n cols
      junk).1.next = h.next + (n + 1)
    rw [ih]
    show h.next + 1 + n = h.next + (n + 1)
    omega

theorem allocRows_bounds (n : Nat) : ∀ (h : Heap) (cols : Nat) (junk : Int),
    ∀ a ∈ (allocRows h n cols junk).2, h.next ≤ a ∧ a < h.next + n := by
  induction n with
  | zero => intro h cols junk a ha; simp [allocRows] at ha
  | succ n ih =>
    intro h cols junk a ha
    have : a = h.next ∨
        a ∈ (allocRows (allocBlock h (List.replicate cols junk)).1 n cols
          junk).2 := List.mem_cons.mp ha
    rcases this with rfl | hmem
    · omega
    · have := ih (allocBlock h (List.replicate cols junk)).1 cols junk a hmem
      have hx : (allocBlock h (List.replicate cols junk)).1.next = h.next + 1 :=
        rfl
      rw [hx] at this
      omega

theorem allocRows_nodup (n : Nat) : ∀ (h : Heap) (cols : Nat) (junk : Int),
    (allocRows h n cols junk).2.Nodup := by
  induction n with
  | zero => intro h cols junk; exact List.nodup_nil
  | succ n ih =>
    intro h cols junk
    refine List.nodup_cons.mpr ⟨fun hmem => ?_, ih _ cols junk⟩
    have := allocRows_bounds n (allocBlock h (List.replicate cols junk)).1
      cols junk h.next hmem
    have hx : (allocBlock h (List.replicate cols junk)).1.next = h.next + 1 :=
      rfl
    rw [hx] at this
    omega

theorem allocRows_mem_old (n : Nat) : ∀ (h : Heap) (cols : Nat) (junk : Int)
    (x : Nat), x < h.next → (allocRows h n cols junk).1.mem x = h.mem x := by
  induction n with
  | zero => intro h cols junk x _; rfl
  | succ n ih =>
    intro h cols junk x hx
    show (allocRows (allocBlock h (List.replicate cols junk)).1 n cols
      junk).1.mem x = h.mem x
    rw [ih _ cols junk x (by show x < h.next + 1; omega)]
    show (if x = h.next then some (List.replicate cols junk) else h.mem x) =
      h.mem x
    have : x ≠ h.next := by omega
    simp [this]

theorem allocRows_mem_new (n : Nat) : ∀ (h : Heap) (cols : Nat) (junk : Int),
    ∀ a ∈ (allocRows h n cols junk).2,
      (allocRows h n cols junk).1.mem a = some (List.replicate cols junk) := by
  induction n with
  | zero => intro h cols junk a ha; simp [allocRows] at ha
  | succ n ih =>
    intro h cols junk a ha
    have : a = h.next ∨
        a ∈ (allocRows (allocBlock h (List.replicate cols junk)).1 n cols
          junk).2 := List.mem_cons.mp ha
    show (allocRows (allocBlock h (List.replicate cols junk)).1 n cols
      junk).1.mem a = some (List.replicate cols junk)
    rcases this with rfl | hmem
    · rw [allocRows_mem_old n _ cols junk h.next
        (by show h.next < h.next + 1; omega)]
      show (if h.next = h.next then some (List.replicate cols junk)
        else h.mem h.next) = _
      simp
    · exact ih _ cols junk a hmem

theorem allocRows_log (n : Nat) : ∀ (h : Heap) (cols : Nat) (junk : Int),
    (allocRows h n cols junk).1.log =
      h.log ++ (allocRows h n cols junk).2.map HEvent.alloc := by
  induction n with
  | zero => intro h cols junk; simp [allocRows]
  | succ n ih =>
    intro h cols junk
    show (allocRows (allocBlock h (List.replicate cols junk)).1 n cols
      junk).1.log = h.log ++ (HEvent.alloc h.next ::
        (allocRows (allocBlock h (List.replicate cols junk)).1 n cols
          junk).2.map HEvent.alloc)
    rw [ih]
    show h.log ++ [HEvent.alloc h.next] ++ _ = _
    rw [List.append_assoc]
    rfl

/-! Lemmas about releasing rows. -/

theorem freeRows_mem (rows : List Nat) : ∀ (h : Heap) (x : Nat),
    (freeRows h rows).mem x = if x ∈ rows then none else h.mem x := by
  induction rows with
  | nil => intro h x; simp [freeRows]
  | cons r rs ih =>
    intro h x
    show (freeRows (freeBlock h r) rs).mem x = _
    rw [ih]
    by_cases hrs : x ∈ rs
    · simp [hrs, List.mem_cons]
    · by_cases hr : x = r
      · subst hr
        simp [hrs, freeBlock]
      · have : x ∉ r :: rs := by simp [hr, hrs]
        simp [hrs, this, freeBlock, hr]

theorem freeRows_next (rows : List Nat) : ∀ (h : Heap),
    (freeRows h rows).next = h.next := by
  induction rows with
  | nil => intro h; rfl
  | cons r rs ih =>
    intro h
    show (freeRows (freeBlock h r) rs).next = h.next
    rw [ih]
    rfl

theorem freeRows_log (rows : List Nat) : ∀ (h : Heap),
    (freeRows h rows).log = h.log ++ rows.map HEvent.free := by
  induction rows with
  | nil => intro h; simp [freeRows]
  | cons r rs ih =>
    intro h
    show (freeRows (freeBlock h r) rs).log = h.log ++ (HEvent.free r ::
      rs.map HEvent.free)
    rw [ih]
    show h.log ++ [HEvent.free r] ++ _ = _
    rw [List.append_assoc]
    rfl

/-! Bridging lemmas for list indexing. -/

theorem getElem?_eq_some_getD {l : List Nat} {i : Nat} (hi : i < l.length) :
    l[i]? = some (l.getD i 0) := by
  rw [List.getD_eq_getElem?_getD, List.getElem?_eq_getElem hi]
  rfl

theorem getD_mem_of_lt {l : List Nat} {i : Nat} (hi : i < l.length) :
    l.getD i 0 ∈ l :=
  List.getElem?_mem (getElem?_eq_some_getD hi)

namespace Sheet

/-! Unfolding equations for the embedded operations. -/

theorem copyCtor_eq (h : Heap) (s : Student) (o' : Nat) (junk : Int) :
    Student.copyCtor h s o' junk =
      (copyRows (allocRows h s.size s.size junk).1 (s.matrix.getD [])
        (allocRows h s.size s.size junk).2 s.size,
       { id := s.id, age := s.age, name := s.name, fees := s.fees,
         size := s.size, matrix := some (allocRows h s.size s.size junk).2,
         oid := o' }) := rfl

theorem assign_eq_self (h : Heap) (t s : Student) (junk : Int)
    (hoid : t.oid = s.oid) : Student.assign h t s junk = (h, t) := by
  unfold Student.assign
  rw [if_pos hoid]

theorem assign_eq_same_size (h : Heap) (t s : Student) (junk : Int)
    (hoid : t.oid ≠ s.oid) (hsz : t.size = s.size) :
    Student.assign h t s junk =
      (copyRows h (s.matrix.getD []) (t.matrix.getD []) t.size,
       { t with age := s.age, name := s.name, fees := s.fees }) := by
  have hcond : ¬ t.size ≠ s.size := by simpa using hsz
  simp only [Student.assign, if_neg hoid, ne_eq, hcond, if_false,
    not_false_eq_true]

theorem assign_eq_diff_size (h : Heap) (t s : Student) (junk : Int)
    (rows : List Nat) (hoid : t.oid ≠ s.oid) (hsz : t.size ≠ s.size)
    (hmx : t.matrix = some rows) :
    Student.assign h t s junk =
      (copyRows (allocRows (freeRows h rows) s.size s.size junk).1
        (s.matrix.getD [])
        (allocRows (freeRows h rows) s.size s.size junk).2 s.size,
       { id := t.id, age := s.age, name := s.name, fees := s.fees,
         size := s.size,
         matrix := some (allocRows (freeRows h rows) s.size s.size junk).2,
         oid := t.oid }) := by
  simp only [Student.assign, if_neg hoid, ne_eq, hsz, not_false_eq_true,
    if_true, hmx, Option.getD_some]

end Sheet

/-! Facts about the allocate-fresh-rows-then-copy pattern shared by the copy
constructor and the reallocating branch of the assignment operator. -/

theorem copyFresh_mem_old (hbase : Heap) (srcRows : List Nat) (n : Nat)
    (junk : Int) (x : Nat) (hx : x < hbase.next) :
    (copyRows (allocRows hbase n n junk).1 srcRows
      (allocRows hbase n n junk).2 n).mem x = hbase.mem x := by
  have hnotin : x ∉ (allocRows hbase n n junk).2 := fun hmem => by
    have := allocRows_bounds n hbase n junk x hmem
    omega
  rw [copyRows_mem_notin _ _ _ _ x hnotin]
  exact allocRows_mem_old n hbase n junk x hx

theorem copyFresh_next (hbase : Heap) (srcRows : List Nat) (n : Nat)
    (junk : Int) :
    (copyRows (allocRows hbase n n junk).1 srcRows
      (allocRows hbase n n junk).2 n).next = hbase.next + n := by
  rw [copyRows_next, allocRows_next]

theorem copyFresh_log (hbase : Heap) (srcRows : List Nat) (n : Nat)
    (junk : Int) :
    (copyRows (allocRows hbase n n junk).1 srcRows
      (allocRows hbase n n junk).2 n).log =
      hbase.log ++ (allocRows hbase n n junk).2.map HEvent.alloc := by
  rw [copyRows_log, allocRows_log]

theorem copyFresh_blockLen_new (hbase : Heap) (srcRows : List Nat) (n : Nat)
    (junk : Int) :
    ∀ a ∈ (allocRows hbase n n junk).2,
      blockLen (copyRows (allocRows hbase n n junk).1 srcRows
        (allocRows hbase n n junk).2 n) a = some n := by
  intro a ha
  rw [copyRows_blockLen]
  unfold blockLen
  rw [allocRows_mem_new n hbase n junk a ha]
  simp

theorem copyFresh_blockLen_old (hbase : Heap) (srcRows : List Nat) (n : Nat)
    (junk : Int) (x : Nat) (hx : x < hbase.next) :
    blockLen (copyRows (allocRows hbase n n junk).1 srcRows
      (allocRows hbase n n junk).2 n) x = blockLen hbase x := by
  unfold blockLen
  rw [copyFresh_mem_old hbase srcRows n junk x hx]

theorem copyFresh_read (hbase : Heap) (srcRows : List Nat) (n : Nat)
    (junk : Int)
    (hsrc : ∀ a ∈ srcRows, a < hbase.next ∧ blockLen hbase a = some n)
    (hslen : srcRows.length = n) (i j : Nat) (hi : i < n) (hj : j < n) :
    readCellD (copyRows (allocRows hbase n n junk).1 srcRows
        (allocRows hbase n n junk).2 n)
      (((allocRows hbase n n junk).2).getD i 0) j
      = readCellD hbase (srcRows.getD i 0) j := by
  have hlen2 : (allocRows hbase n n junk).2.length = n :=
    allocRows_length n hbase n junk
  have hnd2 : (allocRows hbase n n junk).2.Nodup :=
    allocRows_nodup n hbase n junk
  have hdisj : ∀ d ∈ (allocRows hbase n n junk).2, d ∉ srcRows := by
    intro d hd hmem
    have h1 := allocRows_bounds n hbase n junk d hd
    have h2 := (hsrc d hmem).1
    omega
  have hsi : srcRows[i]? = some (srcRows.getD i 0) :=
    getElem?_eq_some_getD (by omega)
  have hdi : (allocRows hbase n n junk).2[i]? =
      some ((allocRows hbase n n junk).2.getD i 0) :=
    getElem?_eq_some_getD (by omega)
  have hda_mem : (allocRows hbase n n junk).2.getD i 0 ∈
      (allocRows hbase n n junk).2 := getD_mem_of_lt (by omega)
  have hbl : blockLen (allocRows hbase n n junk).1
      ((allocRows hbase n n junk).2.getD i 0) = some n := by
    unfold blockLen
    rw [allocRows_mem_new n hbase n junk _ hda_mem]
    simp
  rw [copyRows_read srcRows (allocRows hbase n n junk).2 n hnd2 hdisj
    (allocRows hbase n n junk).1 i (srcRows.getD i 0)
    ((allocRows hbase n n junk).2.getD i 0) n j hsi hdi hbl hj hj]
  have hsa_mem : srcRows.getD i 0 ∈ srcRows := getD_mem_of_lt (by omega)
  exact readCellD_congr _ _ _ _
    (allocRows_mem_old n hbase n junk _ (hsrc _ hsa_mem).1)

namespace Sheet

/-! Postconditions of the copy constructor. -/

theorem validIn_inv (h : Heap) (m : Student) (hv : validIn h m) : Inv h m := by
  obtain ⟨rows, hmx, hlen, _, hblk⟩ := hv
  exact Or.inr ⟨rows, hmx, hlen, fun a ha => (hblk a ha).2⟩

theorem copyCtor_mem_old (h : Heap) (s : Student) (o' : Nat) (junk : Int)
    (x : Nat) (hx : x < h.next) :
    (Student.copyCtor h s o' junk).1.mem x = h.mem x := by
  rw [copyCtor_eq]
  exact copyFresh_mem_old h (s.matrix.getD []) s.size junk x hx

theorem copyCtor_next (h : Heap) (s : Student) (o' : Nat) (junk : Int) :
    (Student.copyCtor h s o' junk).1.next = h.next + s.size := by
  rw [copyCtor_eq]
  exact copyFresh_next h (s.matrix.getD []) s.size junk

theorem copyCtor_valid (h : Heap) (s : Student) (o' : Nat) (junk : Int) :
    validIn (Student.copyCtor h s o' junk).1 (Student.copyCtor h s o' junk).2 := by
  refine ⟨(allocRows h s.size s.size junk).2, ?_, ?_, ?_, fun a ha => ⟨?_, ?_⟩⟩
  · rw [copyCtor_eq]
  · rw [copyCtor_eq]
    exact allocRows_length s.size h s.size junk
  · exact allocRows_nodup s.size h s.size junk
  · rw [copyCtor_next]
    have := allocRows_bounds s.size h s.size junk a ha
    omega
  · rw [copyCtor_eq]
    show blockLen (copyRows _ _ _ _) a = some s.size
    exact copyFresh_blockLen_new h (s.matrix.getD []) s.size junk a ha

theorem copyCtor_valid_src (h : Heap) (s : Student) (o' : Nat) (junk : Int)
    (hv : validIn h s) : validIn (Student.copyCtor h s o' junk).1 s := by
  obtain ⟨rows, hmx, hlen, hnd, hblk⟩ := hv
  refine ⟨rows, hmx, hlen, hnd, fun a ha => ⟨?_, ?_⟩⟩
  · rw [copyCtor_next]
    have := (hblk a ha).1
    omega
  · show blockLen _ a = some s.size
    unfold blockLen
    rw [copyCtor_mem_old h s o' junk a (hblk a ha).1]
    exact (hblk a ha).2

theorem copyCtor_sep (h : Heap) (s : Student) (o' : Nat) (junk : Int)
    (hv : validIn h s) : separated (Student.copyCtor h s o' junk).2 s := by
  obtain ⟨rows, hmx, _, _, hblk⟩ := hv
  intro x hx hmem
  rw [copyCtor_eq] at hx
  simp only [Option.getD_some] at hx
  rw [hmx] at hmem
  simp only [Option.getD_some] at hmem
  have h1 := allocRows_bounds s.size h s.size junk x hx
  have h2 := (hblk x hmem).1
  omega

theorem copyCtor_cells (h : Heap) (s : Student) (o' : Nat) (junk : Int)
    (hv : validIn h s) (i j : Nat) (hi : i < s.size) (hj : j < s.size) :
    Student.cell (Student.copyCtor h s o' junk).1
      (Student.copyCtor h s o' junk).2 i j = Student.cell h s i j := by
  obtain ⟨rows, hmx, hlen, _, hblk⟩ := hv
  unfold Student.cell
  rw [copyCtor_eq]
  simp only [Option.getD_some]
  have hsrc : ∀ a ∈ s.matrix.getD [], a < h.next ∧ blockLen h a = some s.size := by
    rw [hmx]; simpa using hblk
  have hslen : (s.matrix.getD []).length = s.size := by rw [hmx]; simpa using hlen
  exact copyFresh_read h (s.matrix.getD []) s.size junk hsrc hslen i j hi hj

/-! Postconditions of the assignment operator on the reallocating path. -/

theorem sep_symm (a b : Student) (hsep : separated a b) : separated b a :=
  fun x hx hmem => hsep x hmem hx

theorem assign_diff_mem_old (h : Heap) (t s : Student) (junk : Int)
    (rows : List Nat) (hoid : t.oid ≠ s.oid) (hsz : t.size ≠ s.size)
    (hmx : t.matrix = some rows) (x : Nat) (hx : x < h.next) (hxr : x ∉ rows) :
    (Student.assign h t s junk).1.mem x = h.mem x := by
  rw [assign_eq_diff_size h t s junk rows hoid hsz hmx]
  show (copyRows _ _ _ _).mem x = h.mem x
  rw [copyFresh_mem_old (freeRows h rows) (s.matrix.getD []) s.size junk x
    (by rw [freeRows_next]; exact hx)]
  rw [freeRows_mem]
  simp [hxr]

theorem assign_diff_freed (h : Heap) (t s : Student) (junk : Int)
    (rows : List Nat) (hoid : t.oid ≠ s.oid) (hsz : t.size ≠ s.size)
    (hmx : t.matrix = some rows) (x : Nat) (hx : x < h.next) (hxr : x ∈ rows) :
    (Student.assign h t s junk).1.mem x = none := by
  rw [assign_eq_diff_size h t s junk rows hoid hsz hmx]
  show (copyRows _ _ _ _).mem x = none
  rw [copyFresh_mem_old (freeRows h rows) (s.matrix.getD []) s.size junk x
    (by rw [freeRows_next]; exact hx)]
  rw [freeRows_mem]
  simp [hxr]

theorem assign_diff_next (h : Heap) (t s : Student) (junk : Int)
    (rows : List Nat) (hoid : t.oid ≠ s.oid) (hsz : t.size ≠ s.size)
    (hmx : t.matrix = some rows) :
    (Student.assign h t s junk).1.next = h.next + s.size := by
  rw [assign_eq_diff_size h t s junk rows hoid hsz hmx]
  show (copyRows _ _ _ _).next = h.next + s.size
  rw [copyFresh_next, freeRows_next]

theorem assign_diff_result (h : Heap) (t s : Student) (junk : Int)
    (rows : List Nat) (hoid : t.oid ≠ s.oid) (hsz : t.size ≠ s.size)
    (hmx : t.matrix = some rows) :
    (Student.assign h t s junk).2 =
      { id := t.id, age := s.age, name := s.name, fees := s.fees,
        size := s.size,
        matrix := some (allocRows (freeRows h rows) s.size s.size junk).2,
        oid := t.oid } := by
  rw [assign_eq_diff_size h t s junk rows hoid hsz hmx]

theorem assign_diff_src_blocks (h : Heap) (t s : Student) (junk : Int)
    (rows srows : List Nat) (hoid : t.oid ≠ s.oid) (hsz : t.size ≠ s.size)
    (hmx : t.matrix = some rows) (hvs : validIn h s)
    (hsmx : s.matrix = some srows) (hsep : separated t s) :
    ∀ x ∈ srows, (Student.assign h t s junk).1.mem x = h.mem x := by
  obtain ⟨rows', hmx', hlen', _, hblk'⟩ := hvs
  rw [hsmx] at hmx'
  obtain rfl : srows = rows' := Option.some.inj hmx'
  intro x hxr
  have hxt : x ∉ rows := by
    intro hmem
    exact hsep x (by rw [hmx]; simpa using hmem) (by rw [hsmx]; simpa using hxr)
  exact assign_diff_mem_old h t s junk rows hoid hsz hmx x
    (hblk' x hxr).1 hxt

theorem assign_diff_cells (h : Heap) (t s : Student) (junk : Int)
    (rows : List Nat) (hoid : t.oid ≠ s.oid) (hsz : t.size ≠ s.size)
    (hmx : t.matrix = some rows) (hvs : validIn h s) (hsep : separated t s)
    (i j : Nat) (hi : i < s.size) (hj : j < s.size) :
    Student.cell (Student.assign h t s junk).1 (Student.assign h t s junk).2
      i j = Student.cell h s i j := by
  obtain ⟨srows, hsmx, hslen, _, hsblk⟩ := hvs
  unfold Student.cell
  rw [assign_eq_diff_size h t s junk rows hoid hsz hmx]
  simp only [Option.getD_some]
  have hsrc : ∀ a ∈ s.matrix.getD [],
      a < (freeRows h rows).next ∧
        blockLen (freeRows h rows) a = some s.size := by
    rw [hsmx]
    simp only [Option.getD_some]
    intro a ha
    have hat : a ∉ rows := by
      intro hmem
      exact hsep a (by rw [hmx]; simpa using hmem)
        (by rw [hsmx]; simpa using ha)
    refine ⟨by rw [freeRows_next]; exact (hsblk a ha).1, ?_⟩
    unfold blockLen
    rw [freeRows_mem]
    simp only [hat, if_false]
    exact (hsblk a ha).2
  have hslen2 : (s.matrix.getD []).length = s.size := by
    rw [hsmx]; simpa using hslen
  rw [copyFresh_read (freeRows h rows) (s.matrix.getD []) s.size junk hsrc
    hslen2 i j hi hj]
  have hsa_mem : (s.matrix.getD []).getD i 0 ∈ s.matrix.getD [] :=
    getD_mem_of_lt (by omega)
  refine readCellD_congr _ _ _ _ ?_
  rw [freeRows_mem]
  have hat : (s.matrix.getD []).getD i 0 ∉ rows := by
    intro hmem
    exact hsep _ (by rw [hmx]; simpa using hmem) hsa_mem
  rw [if_neg hat]

theorem assign_diff_valid (h : Heap) (t s : Student) (junk : Int)
    (rows : List Nat) (hoid : t.oid ≠ s.oid) (hsz : t.size ≠ s.size)
    (hmx : t.matrix = some rows) :
    validIn (Student.assign h t s junk).1 (Student.assign h t s junk).2 := by
  refine ⟨(allocRows (freeRows h rows) s.size s.size junk).2, ?_, ?_, ?_,
    fun a ha => ⟨?_, ?_⟩⟩
  · rw [assign_diff_result h t s junk rows hoid hsz hmx]
  · rw [assign_diff_result h t s junk rows hoid hsz hmx]
    exact allocRows_length s.size (freeRows h rows) s.size junk
  · exact allocRows_nodup s.size (freeRows h rows) s.size junk
  · rw [assign_diff_next h t s junk rows hoid hsz hmx]
    have := allocRows_bounds s.size (freeRows h rows) s.size junk a ha
    rw [freeRows_next] at this
    omega
  · rw [assign_diff_result h t s junk rows hoid hsz hmx]
    show blockLen (Student.assign h t s junk).1 a = some s.size
    rw [assign_eq_diff_size h t s junk rows hoid hsz hmx]
    show blockLen (copyRows _ _ _ _) a = some s.size
    exact copyFresh_blockLen_new (freeRows h rows) (s.matrix.getD [])
      s.size junk a ha

theorem assign_diff_valid_src (h : Heap) (t s : Student) (junk : Int)
    (rows srows : List Nat) (hoid : t.oid ≠ s.oid) (hsz : t.size ≠ s.size)
    (hmx : t.matrix = some rows) (hvs : validIn h s)
    (hsmx : s.matrix = some srows) (hsep : separated t s) :
    validIn (Student.assign h t s junk).1 s := by
  obtain ⟨rows', hmx', hlen', hnd', hblk'⟩ := hvs
  rw [hsmx] at hmx'
  obtain rfl : srows = rows' := Option.some.inj hmx'
  refine ⟨srows, hsmx, hlen', hnd', fun a ha => ⟨?_, ?_⟩⟩
  · rw [assign_diff_next h t s junk rows hoid hsz hmx]
    have := (hblk' a ha).1
    omega
  · unfold blockLen
    rw [assign_diff_src_blocks h t s junk rows srows hoid hsz hmx
      ⟨srows, hsmx, hlen', hnd', hblk'⟩ hsmx hsep a ha]
    exact (hblk' a ha).2

theorem assign_diff_log (h : Heap) (t s : Student) (junk : Int)
    (rows : List Nat) (hoid : t.oid ≠ s.oid) (hsz : t.size ≠ s.size)
    (hmx : t.matrix = some rows) :
    (Student.assign h t s junk).1.log =
      h.log ++ rows.map HEvent.free ++
        (allocRows (freeRows h rows) s.size s.size junk).2.map HEvent.alloc := by
  rw [assign_eq_diff_size h t s junk rows hoid hsz hmx]
  show (copyRows _ _ _ _).log = _
  rw [copyFresh_log, freeRows_log]

end Sheet

namespace Sheet

/-! Postconditions of the assignment operator on the other paths. -/

theorem assign_same_valid (h : Heap) (t s : Student) (junk : Int)
    (hoid : t.oid ≠ s.oid) (hsz : t.size = s.size) (hvt : validIn h t) :
    validIn (Student.assign h t s junk).1 (Student.assign h t s junk).2 := by
  obtain ⟨trows, htmx, htlen, htnd, htblk⟩ := hvt
  rw [assign_eq_same_size h t s junk hoid hsz]
  refine ⟨trows, htmx, htlen, htnd, fun a ha => ⟨?_, ?_⟩⟩
  · rw [copyRows_next]
    exact (htblk a ha).1
  · exact (copyRows_blockLen (s.matrix.getD []) (t.matrix.getD [])
      t.size h a).trans (htblk a ha).2

theorem assign_same_valid_src (h : Heap) (t s : Student) (junk : Int)
    (hoid : t.oid ≠ s.oid) (hsz : t.size = s.size) (hvs : validIn h s) :
    validIn (Student.assign h t s junk).1 s := by
  obtain ⟨srows, hsmx, hslen, hsnd, hsblk⟩ := hvs
  rw [assign_eq_same_size h t s junk hoid hsz]
  refine ⟨srows, hsmx, hslen, hsnd, fun a ha => ⟨?_, ?_⟩⟩
  · rw [copyRows_next]
    exact (hsblk a ha).1
  · exact (copyRows_blockLen (s.matrix.getD []) (t.matrix.getD [])
      t.size h a).trans (hsblk a ha).2

theorem assign_valid_all (h : Heap) (t s : Student) (junk : Int)
    (hvt : validIn h t) (hvs : validIn h s) (hsep : separated t s) :
    validIn (Student.assign h t s junk).1 (Student.assign h t s junk).2 ∧
      validIn (Student.assign h t s junk).1 s := by
  by_cases hoid : t.oid = s.oid
  · rw [assign_eq_self h t s junk hoid]
    exact ⟨hvt, hvs⟩
  · by_cases hsz : t.size = s.size
    · exact ⟨assign_same_valid h t s junk hoid hsz hvt,
        assign_same_valid_src h t s junk hoid hsz hvs⟩
    · obtain ⟨trows, htmx, _, _, _⟩ := hvt
      obtain ⟨srows, hsmx, hs1, hs2, hs3⟩ := hvs
      exact ⟨assign_diff_valid h t s junk trows hoid hsz htmx,
        assign_diff_valid_src h t s junk trows srows hoid hsz htmx
          ⟨srows, hsmx, hs1, hs2, hs3⟩ hsmx hsep⟩

/-! Postconditions of Release. -/

theorem release_eq (h : Heap) (t : Student) (rows : List Nat)
    (hmx : t.matrix = some rows) :
    Student.release h t =
      (freeRows h rows, { t with size := 0, matrix := none }) := by
  simp only [Student.release, hmx]

theorem release_post (h : Heap) (t : Student) (hv : validIn h t) :
    (Student.release h t).2.size = 0 ∧
    (Student.release h t).2.matrix = none ∧
    (∀ x ∈ t.matrix.getD [], (Student.release h t).1.mem x = none) ∧
    Student.release (Student.release h t).1 (Student.release h t).2 =
      ((Student.release h t).1, (Student.release h t).2) := by
  obtain ⟨rows, hmx, _, _, _⟩ := hv
  rw [release_eq h t rows hmx]
  refine ⟨rfl, rfl, ?_, rfl⟩
  intro x hx
  rw [hmx] at hx
  simp only [Option.getD_some] at hx
  show (freeRows h rows).mem x = none
  rw [freeRows_mem]
  simp [hx]

/-! Postconditions of the spec-modelled Construct. -/

theorem construct_neg (h : Heap) (oid : Nat) (sz : Int) (fill : Int)
    (hsz : sz < 0) : construct h oid sz fill = .error .InvalidArgument := by
  simp [construct, hsz]

theorem construct_eq (h : Heap) (oid : Nat) (sz : Int) (fill : Int)
    (hsz : ¬ sz < 0) :
    construct h oid sz fill =
      .ok ((allocRows h sz.toNat sz.toNat fill).1,
        { id := 0, age := 0, name := "", fees := 0, size := sz.toNat,
          matrix := some (allocRows h sz.toNat sz.toNat fill).2,
          oid := oid }) := by
  simp [construct, hsz]

theorem construct_cells (h : Heap) (n : Nat) (fill : Int) (i j : Nat)
    (hi : i < n) (hj : j < n) :
    readCellD (allocRows h n n fill).1 ((allocRows h n n fill).2.getD i 0) j
      = fill := by
  have hlen : (allocRows h n n fill).2.length = n := allocRows_length n h n fill
  have hmem : (allocRows h n n fill).2.getD i 0 ∈ (allocRows h n n fill).2 :=
    getD_mem_of_lt (by omega)
  unfold readCellD readCell
  rw [allocRows_mem_new n h n fill _ hmem]
  simp [List.getElem?_replicate, hj]

theorem construct_valid (h : Heap) (oid : Nat) (n : Nat) (fill : Int) :
    validIn (allocRows h n n fill).1
      { id := 0, age := 0, name := "", fees := 0, size := n,
        matrix := some (allocRows h n n fill).2, oid := oid } := by
  refine ⟨(allocRows h n n fill).2, rfl, allocRows_length n h n fill,
    allocRows_nodup n h n fill, fun a ha => ⟨?_, ?_⟩⟩
  · rw [allocRows_next]
    have := allocRows_bounds n h n fill a ha
    omega
  · show blockLen _ a = some n
    unfold blockLen
    rw [allocRows_mem_new n h n fill a ha]
    simp

end Sheet

namespace Demo

/-! Postconditions of the demo assignment operator. -/

theorem assign_result (h : Heap) (t s : Student) :
    (Student.assign h t s).2 = t := rfl

theorem assign_mem_ne (h : Heap) (t s : Student) (x : Nat)
    (hx : x ≠ t.marks) : (Student.assign h t s).1.mem x = h.mem x :=
  copyCells_mem_ne h s.marks t.marks 3 x hx

theorem assign_reads (h : Heap) (t s : Student) (hne : s.marks ≠ t.marks)
    (hL : blockLen h t.marks = some 3) (k : Nat) (hk : k < 3) :
    readCellD (Student.assign h t s).1 t.marks k = readCellD h s.marks k := by
  show readCellD (copyCells h s.marks t.marks 3) t.marks k = _
  rw [copyCells_read h s.marks t.marks 3 k 3 hne hL]
  simp [hk]

end Demo

namespace Sheet

/-- Claim C1: copy-constructing from any valid instance s yields a copy whose
size and every cell value equal s's, with freshly allocated storage disjoint
from s's; the copy operation leaves s's storage untouched, and subsequently
mutating any cell of either instance never changes any cell of the other. -/
theorem copy_deep_isolation (h : Heap) (s : Student) (o' : Nat) (junk : Int)
    (hv : validIn h s) :
    (Student.copyCtor h s o' junk).2.size = s.size ∧
    (∀ i j, i < s.size → j < s.size →
      Student.cell (Student.copyCtor h s o' junk).1
        (Student.copyCtor h s o' junk).2 i j = Student.cell h s i j) ∧
    separated (Student.copyCtor h s o' junk).2 s ∧
    (∀ x, x < h.next → (Student.copyCtor h s o' junk).1.mem x = h.mem x) ∧
    (∀ i j v i' j', i < s.size → j < s.size → i' < s.size → j' < s.size →
      Student.cell (Student.setCell (Student.copyCtor h s o' junk).1
          (Student.copyCtor h s o' junk).2 i j v) s i' j' =
        Student.cell (Student.copyCtor h s o' junk).1 s i' j' ∧
      Student.cell (Student.setCell (Student.copyCtor h s o' junk).1 s i j v)
          (Student.copyCtor h s o' junk).2 i' j' =
        Student.cell (Student.copyCtor h s o' junk).1
          (Student.copyCtor h s o' junk).2 i' j') := by
  obtain ⟨rows, hmx, hlen, hnd, hblk⟩ := hv
  have hq2len : (allocRows h s.size s.size junk).2.length = s.size :=
    allocRows_length s.size h s.size junk
  have hcopymx : (Student.copyCtor h s o' junk).2.matrix =
      some (allocRows h s.size s.size junk).2 := by rw [copyCtor_eq]
  refine ⟨rfl, copyCtor_cells h s o' junk ⟨rows, hmx, hlen, hnd, hblk⟩,
    copyCtor_sep h s o' junk ⟨rows, hmx, hlen, hnd, hblk⟩,
    copyCtor_mem_old h s o' junk, ?_⟩
  intro i j v i' j' hi hj hi' hj'
  constructor
  · unfold Student.setCell Student.cell
    rw [hcopymx, hmx]
    simp only [Option.getD_some]
    apply readCellD_writeCell_ne
    have hca_mem : (allocRows h s.size s.size junk).2.getD i 0 ∈
        (allocRows h s.size s.size junk).2 := getD_mem_of_lt (by omega)
    have hca_ge := (allocRows_bounds s.size h s.size junk _ hca_mem).1
    have hsa_mem : rows.getD i' 0 ∈ rows := getD_mem_of_lt (by omega)
    have hsa_lt := (hblk _ hsa_mem).1
    omega
  · unfold Student.setCell Student.cell
    rw [hcopymx, hmx]
    simp only [Option.getD_some]
    apply readCellD_writeCell_ne
    have hsa_mem : rows.getD i 0 ∈ rows := getD_mem_of_lt (by omega)
    have hsa_lt := (hblk _ hsa_mem).1
    have hca_mem : (allocRows h s.size s.size junk).2.getD i' 0 ∈
        (allocRows h s.size s.size junk).2 := getD_mem_of_lt (by omega)
    have hca_ge := (allocRows_bounds s.size h s.size junk _ hca_mem).1
    omega

/-- Claim C2: self-assignment hits the identity guard `this == &s` and is a
no-op: the heap and the instance come back bit-for-bit unchanged, so no
storage is corrupted or leaked. -/
theorem self_assign_noop (h : Heap) (x : Student) (junk : Int) :
    Student.assign h x x junk = (h, x) :=
  assign_eq_self h x x junk rfl

/-- Claim C3: assigning from a distinct valid instance of different size
resizes the receiver: afterwards the receiver's size and every cell equal the
source's, the source's storage is untouched, and the receiver's old storage
has been released. -/
theorem assign_diff_size_correct (h : Heap) (a b : Student) (junk : Int)
    (hoid : a.oid ≠ b.oid) (hsz : a.size ≠ b.size)
    (hva : validIn h a) (hvb : validIn h b) (hsep : separated a b) :
    (Student.assign h a b junk).2.size = b.size ∧
    (∀ i j, i < b.size → j < b.size →
      Student.cell (Student.assign h a b junk).1 (Student.assign h a b junk).2
        i j = Student.cell h b i j) ∧
    (∀ x ∈ b.matrix.getD [], (Student.assign h a b junk).1.mem x = h.mem x) ∧
    (∀ x ∈ a.matrix.getD [], (Student.assign h a b junk).1.mem x = none) := by
  obtain ⟨arows, hamx, halen, hand, hablk⟩ := hva
  obtain ⟨brows, hbmx, hb1, hb2, hb3⟩ := hvb
  refine ⟨?_, ?_, ?_, ?_⟩
  · rw [assign_diff_result h a b junk arows hoid hsz hamx]
  · exact assign_diff_cells h a b junk arows hoid hsz hamx
      ⟨brows, hbmx, hb1, hb2, hb3⟩ hsep
  · intro x hx
    rw [hbmx] at hx
    simp only [Option.getD_some] at hx
    exact assign_diff_src_blocks h a b junk arows brows hoid hsz hamx
      ⟨brows, hbmx, hb1, hb2, hb3⟩ hbmx hsep x hx
  · intro x hx
    rw [hamx] at hx
    simp only [Option.getD_some] at hx
    exact assign_diff_freed h a b junk arows hoid hsz hamx x
      (hablk x hx).1 hx

end Sheet

namespace Sheet

/-- Claim C4: the bounds-checked accessors fail with OutOfRange for any index
with row or col outside the square, and in particular Get(-1, 0) fails with
OutOfRange on any instance; the failing Set performs no heap access. -/
theorem get_set_out_of_range (h : Heap) (m : Student) (row col : Int)
    (v : Int)
    (hout : row < 0 ∨ (m.size : Int) ≤ row ∨ col < 0 ∨ (m.size : Int) ≤ col) :
    Student.get h m row col = .error .OutOfRange ∧
    Student.set h m row col v = .error .OutOfRange ∧
    Student.get h m (-1) 0 = .error .OutOfRange := by
  refine ⟨?_, ?_, ?_⟩
  · unfold Student.get
    rw [if_pos hout]
  · unfold Student.set
    rw [if_pos hout]
  · unfold Student.get
    rw [if_pos (Or.inl (by omega))]

/-- Claim C5: Construct rejects every negative size (in particular -1) with
InvalidArgument, and for every size at least 0 succeeds with a valid instance
holding exactly size rows of size cells each, all equal to the fill value. -/
theorem construct_bounds :
    (∀ (h : Heap) (oid : Nat) (sz : Int) (fill : Int), sz < 0 →
      construct h oid sz fill = .error .InvalidArgument) ∧
    (∀ (h : Heap) (oid : Nat) (fill : Int),
      construct h oid (-1) fill = .error .InvalidArgument) ∧
    (∀ (h : Heap) (oid : Nat) (sz : Int) (fill : Int), 0 ≤ sz →
      ∃ h' m, construct h oid sz fill = .ok (h', m) ∧
        m.size = sz.toNat ∧
        (∃ rows, m.matrix = some rows ∧ rows.length = sz.toNat ∧
          ∀ a ∈ rows, blockLen h' a = some sz.toNat) ∧
        validIn h' m ∧
        ∀ i j, i < sz.toNat → j < sz.toNat → Student.cell h' m i j = fill) := by
  refine ⟨?_, ?_, ?_⟩
  · intro h oid sz fill hsz
    exact construct_neg h oid sz fill hsz
  · intro h oid fill
    exact construct_neg h oid (-1) fill (by omega)
  · intro h oid sz fill hsz
    refine ⟨(allocRows h sz.toNat sz.toNat fill).1,
      { id := 0, age := 0, name := "", fees := 0, size := sz.toNat,
        matrix := some (allocRows h sz.toNat sz.toNat fill).2, oid := oid },
      construct_eq h oid sz fill (by omega), rfl, ?_, ?_, ?_⟩
    · refine ⟨(allocRows h sz.toNat sz.toNat fill).2, rfl,
        allocRows_length sz.toNat h sz.toNat fill, fun a ha => ?_⟩
      unfold blockLen
      rw [allocRows_mem_new sz.toNat h sz.toNat fill a ha]
      simp
    · exact construct_valid h oid sz.toNat fill
    · intro i j hi hj
      unfold Student.cell
      simp only [Option.getD_some]
      exact construct_cells h sz.toNat fill i j hi hj

/-- Claim C6: Release is idempotent and leaves the instance in the empty
state: afterwards size is 0 and the matrix pointer is null, every previously
owned row block is deallocated, and a second Release returns the heap and the
instance unchanged. -/
theorem release_idempotent_empty (h : Heap) (t : Student)
    (hv : validIn h t) :
    (Student.release h t).2.size = 0 ∧
    (Student.release h t).2.matrix = none ∧
    (∀ x ∈ t.matrix.getD [], (Student.release h t).1.mem x = none) ∧
    Student.release (Student.release h t).1 (Student.release h t).2 =
      ((Student.release h t).1, (Student.release h t).2) :=
  release_post h t hv

/-- Claim C7 counterexample: a concrete assignment between valid instances of
different sizes whose event trace contains a free strictly before an alloc:
the code releases the receiver's old storage before acquiring the new
storage, contrary to the claimed ordering. -/
theorem assign_release_order_cex :
    validIn sampleB.1 sampleA.2 ∧ validIn sampleB.1 sampleB.2 ∧
    sampleA.2.oid ≠ sampleB.2.oid ∧ sampleA.2.size ≠ sampleB.2.size ∧
    separated sampleA.2 sampleB.2 ∧
    hasAllocAfterFree (assignEvents sampleB.1 sampleA.2 sampleB.2 0) = true := by
  refine ⟨⟨[0], rfl, rfl, by decide, by decide⟩,
    ⟨[1, 2], rfl, rfl, by decide, by decide⟩,
    by decide, by decide, ?_, by decide⟩
  unfold separated
  decide

/-- Claim C7 (amended): on the reallocating path the assignment releases the
receiver's old row blocks first and only then allocates the new rows (the
appended event trace is exactly the frees followed by the allocs); since
allocation in this model always succeeds, the operation completes with the
receiver satisfying the storage invariant. -/
theorem assign_release_before_alloc (h : Heap) (t s : Student) (junk : Int)
    (hoid : t.oid ≠ s.oid) (hsz : t.size ≠ s.size) (hvt : validIn h t) :
    ∃ oldRows newRows,
      t.matrix = some oldRows ∧
      (Student.assign h t s junk).2.matrix = some newRows ∧
      assignEvents h t s junk =
        oldRows.map HEvent.free ++ newRows.map HEvent.alloc ∧
      validIn (Student.assign h t s junk).1
        (Student.assign h t s junk).2 := by
  obtain ⟨rows, hmx, _, _, _⟩ := hvt
  refine ⟨rows, (allocRows (freeRows h rows) s.size s.size junk).2, hmx,
    ?_, ?_, ?_⟩
  · rw [assign_diff_result h t s junk rows hoid hsz hmx]
  · unfold assignEvents
    rw [assign_diff_log h t s junk rows hoid hsz hmx, List.append_assoc]
    exact List.drop_left h.log _
  · exact assign_diff_valid h t s junk rows hoid hsz hmx

/-- Claim C8: at every externally observable point the storage invariant
holds: construction, copy construction, assignment between valid non-aliased
operands, and release each leave every involved instance either empty or
fully allocated to its declared size. -/
theorem ops_preserve_invariant :
    (∀ (h : Heap) (oid : Nat) (sz : Int) (fill : Int) (h' : Heap)
      (m : Student), construct h oid sz fill = .ok (h', m) → Inv h' m) ∧
    (∀ (h : Heap) (s : Student) (o' : Nat) (junk : Int), validIn h s →
      Inv (Student.copyCtor h s o' junk).1 (Student.copyCtor h s o' junk).2 ∧
      Inv (Student.copyCtor h s o' junk).1 s) ∧
    (∀ (h : Heap) (t s : Student) (junk : Int), validIn h t → validIn h s →
      separated t s →
      Inv (Student.assign h t s junk).1 (Student.assign h t s junk).2 ∧
      Inv (Student.assign h t s junk).1 s) ∧
    (∀ (h : Heap) (t : Student), validIn h t →
      Inv (Student.release h t).1 (Student.release h t).2) := by
  refine ⟨?_, ?_, ?_, ?_⟩
  · intro h oid sz fill h' m heq
    by_cases hsz : sz < 0
    · rw [construct_neg h oid sz fill hsz] at heq
      simp at heq
    · rw [construct_eq h oid sz fill hsz] at heq
      injection heq with hpair
      obtain ⟨rfl, rfl⟩ := Prod.mk.inj hpair
      exact validIn_inv _ _ (construct_valid h oid sz.toNat fill)
  · intro h s o' junk hv
    exact ⟨validIn_inv _ _ (copyCtor_valid h s o' junk),
      validIn_inv _ _ (copyCtor_valid_src h s o' junk hv)⟩
  · intro h t s junk hvt hvs hsep
    obtain ⟨h1, h2⟩ := assign_valid_all h t s junk hvt hvs hsep
    exact ⟨validIn_inv _ _ h1, validIn_inv _ _ h2⟩
  · intro h t hv
    obtain ⟨rows, hmx, _, _, _⟩ := hv
    rw [release_eq h t rows hmx]
    exact Or.inl ⟨rfl, rfl⟩

end Sheet

namespace Demo

/-- Claim C9: the demo copy assignment writes only the three marks cells of
the receiver's existing marks block: the returned record (id, age, name and
the marks pointer) is the receiver unchanged, no other heap address is
touched, and the three cells now equal the source's marks. -/
theorem assign_marks_frame (h : Heap) (t s : Student)
    (hne : s.marks ≠ t.marks) (hL : blockLen h t.marks = some 3) :
    (Student.assign h t s).2 = t ∧
    (∀ x, x ≠ t.marks → (Student.assign h t s).1.mem x = h.mem x) ∧
    (∀ k, k < 3 → readCellD (Student.assign h t s).1 t.marks k =
      readCellD h s.marks k) :=
  ⟨rfl, fun x hx => assign_mem_ne h t s x hx,
   fun k hk => assign_reads h t s hne hL k hk⟩

/-- Claim C10: both non-copy Person constructors increment the static
population counter by one, the copy constructor leaves it unchanged, the
destructor decrements it by one, and copy-constructing then destroying the
copy nets a decrease of one against the prior value. -/
theorem population_counting (x age pid : Int) (nm : String) (p : Person)
    (pop : Int) :
    (Person.mkDefault x pop).2 = pop + 1 ∧
    (Person.mkParam age nm pid pop).2 = pop + 1 ∧
    (Person.copyCtor p pop).2 = pop ∧
    Person.dtor p pop = pop - 1 ∧
    Person.dtor (Person.copyCtor p pop).1 (Person.copyCtor p pop).2 =
      pop - 1 :=
  ⟨rfl, rfl, rfl, rfl, rfl⟩

end Demo

namespace Sheet

/-- Claim C1 witness: concrete instantiation on the size-1 sample. -/
theorem copy_deep_isolation_witness :
    validIn sampleA.1 sampleA.2 ∧
    (Student.copyCtor sampleA.1 sampleA.2 7 0).2.size = sampleA.2.size ∧
    Student.cell (Student.copyCtor sampleA.1 sampleA.2 7 0).1
      (Student.copyCtor sampleA.1 sampleA.2 7 0).2 0 0 =
      Student.cell sampleA.1 sampleA.2 0 0 ∧
    Student.cell (Student.setCell (Student.copyCtor sampleA.1 sampleA.2 7 0).1
        (Student.copyCtor sampleA.1 sampleA.2 7 0).2 0 0 42) sampleA.2 0 0 =
      Student.cell (Student.copyCtor sampleA.1 sampleA.2 7 0).1
        sampleA.2 0 0 := by
  have hv : validIn sampleA.1 sampleA.2 :=
    ⟨[0], rfl, rfl, by decide, by decide⟩
  have H := copy_deep_isolation sampleA.1 sampleA.2 7 0 hv
  exact ⟨hv, H.1, H.2.1 0 0 (by decide) (by decide),
    (H.2.2.2.2 0 0 42 0 0 (by decide) (by decide) (by decide) (by decide)).1⟩

/-- Claim C3 witness: concrete instantiation assigning the size-2 sample into
the size-1 sample. -/
theorem assign_diff_size_witness :
    validIn sampleB.1 sampleA.2 ∧ validIn sampleB.1 sampleB.2 ∧
    (Student.assign sampleB.1 sampleA.2 sampleB.2 0).2.size =
      sampleB.2.size ∧
    Student.cell (Student.assign sampleB.1 sampleA.2 sampleB.2 0).1
      (Student.assign sampleB.1 sampleA.2 sampleB.2 0).2 1 1 =
      Student.cell sampleB.1 sampleB.2 1 1 := by
  have hva : validIn sampleB.1 sampleA.2 :=
    ⟨[0], rfl, rfl, by decide, by decide⟩
  have hvb : validIn sampleB.1 sampleB.2 :=
    ⟨[1, 2], rfl, rfl, by decide, by decide⟩
  have hsep : separated sampleA.2 sampleB.2 := by
    unfold separated
    decide
  have H := assign_diff_size_correct sampleB.1 sampleA.2 sampleB.2 0
    (by decide) (by decide) hva hvb hsep
  exact ⟨hva, hvb, H.1, H.2.1 1 1 (by decide) (by decide)⟩

/-- Claim C4 witness: Get(-1, 0) and Set(-1, 0, 9) fail with OutOfRange on
the concrete sample. -/
theorem get_set_out_of_range_witness :
    Student.get sampleA.1 sampleA.2 (-1) 0 = .error .OutOfRange ∧
    Student.set sampleA.1 sampleA.2 (-1) 0 9 = .error .OutOfRange := by
  have H := get_set_out_of_range sampleA.1 sampleA.2 (-1) 0 9
    (Or.inl (by decide))
  exact ⟨H.1, H.2.1⟩

/-- Claim C5 witness: Construct(-1) fails with InvalidArgument and
Construct(2, fill 7) succeeds with all four cells equal to 7. -/
theorem construct_bounds_witness :
    (-5 : Int) < 0 ∧
    construct Heap.empty 4 (-5) 7 = .error .InvalidArgument ∧
    construct Heap.empty 3 (-1) 7 = .error .InvalidArgument ∧
    (0 : Int) ≤ 2 ∧
    (∃ h' m, construct Heap.empty 3 2 7 = .ok (h', m) ∧
      m.size = (2 : Int).toNat ∧
      (∃ rows, m.matrix = some rows ∧ rows.length = (2 : Int).toNat ∧
        ∀ a ∈ rows, blockLen h' a = some (2 : Int).toNat) ∧
      validIn h' m ∧
      ∀ i j, i < (2 : Int).toNat → j < (2 : Int).toNat →
        Student.cell h' m i j = 7) :=
  ⟨by decide, construct_bounds.1 Heap.empty 4 (-5) 7 (by decide),
   construct_bounds.2.1 Heap.empty 3 7, by decide,
   construct_bounds.2.2 Heap.empty 3 2 7 (by decide)⟩

/-- Claim C6 witness: releasing the concrete sample empties it and a second
release is a no-op. -/
theorem release_idempotent_witness :
    validIn sampleA.1 sampleA.2 ∧
    (Student.release sampleA.1 sampleA.2).2.size = 0 ∧
    (Student.release sampleA.1 sampleA.2).2.matrix = none ∧
    Student.release (Student.release sampleA.1 sampleA.2).1
        (Student.release sampleA.1 sampleA.2).2 =
      ((Student.release sampleA.1 sampleA.2).1,
       (Student.release sampleA.1 sampleA.2).2) := by
  have hv : validIn sampleA.1 sampleA.2 :=
    ⟨[0], rfl, rfl, by decide, by decide⟩
  have H := release_idempotent_empty sampleA.1 sampleA.2 hv
  exact ⟨hv, H.1, H.2.1, H.2.2.2⟩

/-- Claim C7 witness for the amended statement: on the concrete samples the
appended trace is exactly the frees of the old rows followed by the allocs of
the new rows. -/
theorem assign_release_before_alloc_witness :
    sampleA.2.oid ≠ sampleB.2.oid ∧ sampleA.2.size ≠ sampleB.2.size ∧
    validIn sampleB.1 sampleA.2 ∧
    (∃ oldRows newRows, sampleA.2.matrix = some oldRows ∧
      (Student.assign sampleB.1 sampleA.2 sampleB.2 0).2.matrix =
        some newRows ∧
      assignEvents sampleB.1 sampleA.2 sampleB.2 0 =
        oldRows.map HEvent.free ++ newRows.map HEvent.alloc ∧
      validIn (Student.assign sampleB.1 sampleA.2 sampleB.2 0).1
        (Student.assign sampleB.1 sampleA.2 sampleB.2 0).2) := by
  have hv : validIn sampleB.1 sampleA.2 :=
    ⟨[0], rfl, rfl, by decide, by decide⟩
  exact ⟨by decide, by decide, hv,
    assign_release_before_alloc sampleB.1 sampleA.2 sampleB.2 0 (by decide)
      (by decide) hv⟩

/-- Claim C8 witness: the invariant holds after each concrete operation. -/
theorem ops_preserve_invariant_witness :
    Inv (allocRows Heap.empty 2 2 7).1
      { id := 0, age := 0, name := "", fees := 0, size := (2 : Int).toNat,
        matrix := some (allocRows Heap.empty 2 2 7).2, oid := 3 } ∧
    Inv (Student.copyCtor sampleA.1 sampleA.2 7 0).1
      (Student.copyCtor sampleA.1 sampleA.2 7 0).2 ∧
    Inv (Student.assign sampleB.1 sampleA.2 sampleB.2 0).1
      (Student.assign sampleB.1 sampleA.2 sampleB.2 0).2 ∧
    Inv (Student.release sampleA.1 sampleA.2).1
      (Student.release sampleA.1 sampleA.2).2 := by
  have hva : validIn sampleA.1 sampleA.2 :=
    ⟨[0], rfl, rfl, by decide, by decide⟩
  have hva' : validIn sampleB.1 sampleA.2 :=
    ⟨[0], rfl, rfl, by decide, by decide⟩
  have hvb : validIn sampleB.1 sampleB.2 :=
    ⟨[1, 2], rfl, rfl, by decide, by decide⟩
  have hsep : separated sampleA.2 sampleB.2 := by
    unfold separated
    decide
  refine ⟨ops_preserve_invariant.1 Heap.empty 3 2 7 _ _ ?_,
    (ops_preserve_invariant.2.1 sampleA.1 sampleA.2 7 0 hva).1,
    (ops_preserve_invariant.2.2.1 sampleB.1 sampleA.2 sampleB.2 0 hva' hvb
      hsep).1,
    ops_preserve_invariant.2.2.2 sampleA.1 sampleA.2 hva⟩
  rfl

end Sheet

namespace Demo

/-- Claim C9 witness: a concrete assignment between two students with marks
blocks at addresses 1 and 0. -/
theorem assign_marks_frame_witness :
    (Student.assign marksHeap ⟨1, 20, "Bob", 1⟩ ⟨2, 21, "Ann", 0⟩).2 =
      (⟨1, 20, "Bob", 1⟩ : Student) ∧
    readCellD (Student.assign marksHeap ⟨1, 20, "Bob", 1⟩
      ⟨2, 21, "Ann", 0⟩).1 1 0 = readCellD marksHeap 0 0 := by
  have H := assign_marks_frame marksHeap ⟨1, 20, "Bob", 1⟩ ⟨2, 21, "Ann", 0⟩
    (by decide) (by decide)
  exact ⟨H.1, H.2.2 0 (by decide)⟩

end Demo
